import Mathlib

/-!
Verification of the syslog parsing library (Go) against its specification.

The embedding is shallow: Go bytes are `Nat` values 0 ≤ b < 256, byte slices
are `List Nat`, Go strings (which are byte strings) are `List Nat` as well,
and the human-readable text inside error values uses Lean `String`.  The
mutable `*buffer` receiver is modelled by explicit state passing: every
operation returns the updated buffer next to its result.  Fallible Go
functions return `Except Err` values; `io.EOF` results of the buffer
primitives are modelled as a `Bool` flag, exactly where the Go code returns
the sentinel error next to a usable partial result.
-/

set_option maxRecDepth 4000
set_option linter.dupNamespace false

/-! ## Byte and length constants (parsers.go) -/

def maxPriorityLength : Nat := 3
def maxVersionLength : Nat := 2
def maxHostnameLength : Nat := 255
def maxAppNameLength : Nat := 48
def maxProcessIDLength : Nat := 128
def maxMessageIDLength : Nat := 32
def maxDataIDLength : Nat := 32
def maxDataParamLength : Nat := 32

def spaceByte : Nat := 32
def nilValueByte : Nat := 45
def equalByte : Nat := 61
def qouteByte : Nat := 34
def commaByte : Nat := 44
def colonByte : Nat := 58
def priorityStart : Nat := 60
def priorityEnd : Nat := 62
def dataStart : Nat := 91
def dataEnd : Nat := 93

def nilValue : List Nat := [nilValueByte]

def bom : List Nat := [239, 187, 191]

/-! ## Errors

Go surfaces three kinds of failure out of a parse: the sentinel `io.EOF`
(and its translation `io.ErrUnexpectedEOF` at the driver), positioned
format errors, and runtime panics for programming errors.  `panicked`
models a Go panic propagating out of the library. -/

inductive Err where
  | eof
  | unexpectedEOF
  | formatErr (pos : Nat) (msg : String)
  | panicked (msg : String)
deriving DecidableEq, Repr

/-- Modelled from the spec: the positioned format-error constructor
(`newFormatError(pos, msg)` in the tests and parsers) is declared outside
the files present under src/; per the spec a format error carries a byte
offset into the original input and a human-readable reason. -/
def newFormatError (pos : Nat) (msg : String) : Err := Err.formatErr pos msg

/-- Equality of `Except` results is decidable when both sides are. -/
instance exceptDecEq {ε α : Type} [DecidableEq ε] [DecidableEq α] :
    DecidableEq (Except ε α) := fun a b =>
  match a, b with
  | .error e1, .error e2 =>
    if h : e1 = e2 then isTrue (by rw [h]) else isFalse (by intro hc; cases hc; exact h rfl)
  | .error _, .ok _ => isFalse (by intro hc; cases hc)
  | .ok _, .error _ => isFalse (by intro hc; cases hc)
  | .ok v1, .ok v2 =>
    if h : v1 = v2 then isTrue (by rw [h]) else isFalse (by intro hc; cases hc; exact h rfl)

/-! ## String and byte helpers -/

def strBytes (s : String) : List Nat := s.data.map Char.toNat

def bytesToStr (l : List Nat) : String := String.mk (l.map Char.ofNat)

/-- Go `string(c)` for a single byte. -/
def byteStr (c : Nat) : String := String.mk [Char.ofNat c]

/-! ## The cursor (buffer.go) -/

structure Buffer where
  bytes : List Nat
  position : Nat
deriving DecidableEq, Repr

/-- The stored `length` field always equals `len(bytes)`. -/
def Buffer.length (buf : Buffer) : Nat := buf.bytes.length

def Buffer.maxRead (buf : Buffer) : Nat := buf.length - buf.position

def newBuffer (b : List Nat) : Buffer := { bytes := b, position := 0 }

/-- `Discard(n)`: advance by at most `n`, clamped to the remaining bytes,
returning the number discarded. -/
def Buffer.Discard (buf : Buffer) (n : Nat) : Buffer × Nat :=
  let n := if n > buf.maxRead then buf.maxRead else n
  ({ buf with position := buf.position + n }, n)

/-- `Peek(n)`: the next `n` bytes without advancing; the flag is the
`io.EOF` that Go returns when fewer than `n` bytes remain. -/
def Buffer.Peek (buf : Buffer) (n : Nat) : List Nat × Bool :=
  if n > buf.maxRead then ((buf.bytes.drop buf.position).take buf.maxRead, true)
  else ((buf.bytes.drop buf.position).take n, false)

/-- `ReadByte()`: next byte and advance; flag true means `io.EOF` (Go
returns byte 0 and does not advance). -/
def Buffer.ReadByte (buf : Buffer) : Nat × Buffer × Bool :=
  if buf.position = buf.length then (0, buf, true)
  else (buf.bytes.getD buf.position 0, { buf with position := buf.position + 1 }, false)

/-- `UnreadByte()`: position back by one; `none` models the Go panic
`"syslog: can't unread byte"` when the position is already 0. -/
def Buffer.UnreadByte (buf : Buffer) : Option Buffer :=
  if buf.position = 0 then none
  else some { buf with position := buf.position - 1 }

/-- First index of byte `c` (the scan inside `ReadSlice`). -/
def findByte (c : Nat) : List Nat → Option Nat
  | [] => none
  | cc :: rest => if cc = c then some 0 else (findByte c rest).map (· + 1)

/-- `ReadSlice(c)`: bytes through the first occurrence of `c` inclusive,
advancing past it; when `c` is absent, all remaining bytes with the
`io.EOF` flag, the position left at the end. -/
def Buffer.ReadSlice (buf : Buffer) (c : Nat) : List Nat × Buffer × Bool :=
  let rest := buf.bytes.drop buf.position
  match findByte c rest with
  | some i => (rest.take (i + 1), { buf with position := buf.position + i + 1 }, false)
  | none => (rest, { buf with position := buf.length }, true)

/-- `ReadAll()`: everything from the position to the end; advances to end. -/
def Buffer.ReadAll (buf : Buffer) : List Nat × Buffer :=
  (buf.bytes.drop buf.position, { buf with position := buf.length })

/-- Modelled from the spec: the accessor `Pos()` used by the parsers for
error offsets is declared outside the files present under src/.  The
repository's own tests pin its value: `TestParsePriority` expects the
mismatch on the very first byte to be reported at offset 1 (input `"!"`),
the empty priority of `"<>"` at offset 2, and the too-long priority of
`"<1923>"` at offset 5 — all equal to `position + 1`, a one-based offset. -/
def Buffer.Pos (buf : Buffer) : Nat := buf.position + 1

/-! ## Priority, facility, severity (priority.go) -/

def multiplier : Nat := 8
def maxFacility : Nat := 23
def maxSeverity : Nat := 7
def maxPriority : Nat := maxFacility * multiplier + maxSeverity

/-- `Priority.CalculateFacility`: `priority / multiplier` (uint8 division). -/
def CalculateFacility (priority : Nat) : Nat := priority / multiplier

/-- `Priority.CalculateSeverity`: `priority - ((priority / multiplier) * multiplier)`. -/
def CalculateSeverity (priority : Nat) : Nat :=
  priority - priority / multiplier * multiplier

/-- `Priority.IsValid`: `priority <= maxPriority`. -/
def PriorityIsValid (priority : Nat) : Bool := priority ≤ maxPriority

/-- `Facility.IsValid`: `facility <= maxFacility`. -/
def FacilityIsValid (facility : Nat) : Bool := facility ≤ maxFacility

/-- `Severity.IsValid`: `severity <= maxSeverity`. -/
def SeverityIsValid (severity : Nat) : Bool := severity ≤ maxSeverity

/-- `CalculatePriority`: `int(facility)*multiplier + int(severity)` computed in
`int` and then converted to the `uint8`-backed `Priority`; the conversion is
the wrap modulo 2^8. -/
def CalculatePriority (facility severity : Nat) : Nat :=
  (facility * multiplier + severity) % 256

/-! ## The record (Message) and its structured-data maps

Go's `map[string]string` and `map[string]map[string]string` are modelled as
association lists with overwriting insertion; `mapSet` replaces the value at
an existing key and `mapGet` is lookup.  Only content, not iteration order,
is observable in Go (serialization sorts the keys). -/

def mapSet {α : Type} : List (List Nat × α) → List Nat → α → List (List Nat × α)
  | [], k, v => [(k, v)]
  | (k2, v2) :: rest, k, v =>
    if k2 = k then (k, v) :: rest else (k2, v2) :: mapSet rest k v

def mapGet {α : Type} : List (List Nat × α) → List Nat → Option α
  | [], _ => none
  | (k2, v2) :: rest, k => if k2 = k then some v2 else mapGet rest k

/-- One structured-data group: param name to param value. -/
abbrev PMap := List (List Nat × List Nat)

/-- The structured-data section: data-ID to group. -/
abbrev DMap := List (List Nat × PMap)

/-- A `time.Time` value as far as this library inspects one: the broken-down
fields parsed from the accepted fixed-width layouts, with the zone as the
offset east of UTC in minutes.  The zero `time.Time` is `none` at the use
site (`Option GoTime`). -/
structure GoTime where
  year : Nat
  month : Nat
  day : Nat
  hour : Nat
  minute : Nat
  second : Nat
  nanos : Nat
  tzMinutes : Int
deriving DecidableEq, Repr

/-- The output record (syslog.go / part_001). -/
structure Message where
  Priority : Nat
  Facility : Nat
  Severity : Nat
  Version : Nat
  Timestamp : Option GoTime
  Hostname : List Nat
  Appname : List Nat
  ProcessID : List Nat
  MessageID : List Nat
  Data : DMap
  Message : List Nat
deriving DecidableEq, Repr

/-- The Go zero value `Message{}` that `ParseMessage` starts from. -/
def emptyMessage : Message :=
  { Priority := 0, Facility := 0, Severity := 0, Version := 0, Timestamp := none,
    Hostname := [], Appname := [], ProcessID := [], MessageID := [],
    Data := [], Message := [] }

/-- `parseFunc`: one field-parser step, cursor and record threaded through. -/
abbrev ParseFunc := Buffer → Message → Except Err (Buffer × Message)

/-! ## Number parsing (strconv, as used here)

`strconv.Atoi` accepts an optional sign and then decimal digits;
`strconv.ParseUint` accepts decimal digits only.  The parsers below call them
on at most 3 bytes, so 64-bit overflow cannot occur and is not modelled. -/

def isDigit (c : Nat) : Bool := 48 ≤ c && c ≤ 57

def digitsVal (l : List Nat) : Option Nat :=
  if l = [] then none
  else l.foldl
    (fun acc c => match acc with
      | none => none
      | some n => if isDigit c then some (n * 10 + (c - 48)) else none)
    (some 0)

/-- `strconv.Atoi` on a byte string. -/
def Atoi (l : List Nat) : Option Int :=
  match l with
  | 43 :: rest => (digitsVal rest).map (fun n => (n : Int))
  | 45 :: rest => (digitsVal rest).map (fun n => -(n : Int))
  | _ => (digitsVal l).map (fun n => (n : Int))

/-- `strconv.ParseUint(s, 10, 0)` on a byte string. -/
def ParseUint (l : List Nat) : Option Nat := digitsVal l

/-! ## Whitespace trimming (bytes.TrimSpace / TrimPrefix)

ASCII whitespace; the additional Unicode space runes Go would trim are not
representable in the single-byte inputs exercised here. -/

def isSpaceByte (c : Nat) : Bool := c = 32 || (9 ≤ c && c ≤ 13)

def trimSpace (l : List Nat) : List Nat :=
  ((l.dropWhile isSpaceByte).reverse.dropWhile isSpaceByte).reverse

def trimPrefix (l pre : List Nat) : List Nat :=
  if pre.isPrefixOf l then l.drop pre.length else l

/-! ## Field parsers (parsers.go) -/

/-- `checkByte`: read one byte and require it to equal `expected`. -/
def checkByte (buf : Buffer) (expected : Nat) : Except Err Buffer :=
  let startPos := buf.Pos
  match buf.ReadByte with
  | (_, _, true) => .error Err.eof
  | (c, buf1, false) =>
    if c = expected then .ok buf1
    else .error (newFormatError startPos
      ("expected byte '" ++ byteStr expected ++ "', but got '" ++ byteStr c ++ "'"))

/-- `nextIsNilValue`: probe for the nil marker, consuming it only when
present.  The read-then-unread on a non-marker byte restores the original
cursor; the unread cannot panic there because the read just advanced. -/
def nextIsNilValue (buf : Buffer) : Bool × Buffer :=
  match buf.ReadByte with
  | (_, _, true) => (false, buf)
  | (b, buf1, false) =>
    if b = nilValueByte then (true, buf1)
    else
      match buf1.UnreadByte with
      | some buf2 => (false, buf2)
      | none => (false, buf1)

/-- `parsePriority`: `<N>` with at most `maxPriorityLength` bytes of content,
stored through the `Priority(int)` conversion (truncation to uint8). -/
def parsePriority : ParseFunc := fun buf msg =>
  match checkByte buf priorityStart with
  | .error e => .error e
  | .ok buf =>
    let startPos := buf.Pos
    let (priorityBytes, buf, eof) := buf.ReadSlice priorityEnd
    if eof then
      let pos := startPos + maxPriorityLength
      let pos := if pos > buf.Pos then buf.Pos else pos
      .error (newFormatError pos "priority not closed")
    else if priorityBytes.length > maxPriorityLength + 1 then
      .error (newFormatError (startPos + maxPriorityLength) "priority too long")
    else
      let priorityBytes := priorityBytes.dropLast
      if priorityBytes.length = 0 then
        .error (newFormatError startPos "priority can't be empty")
      else
        match Atoi priorityBytes with
        | none =>
          .error (newFormatError startPos
            ("priority not a number: " ++ bytesToStr priorityBytes))
        | some priority => .ok (buf, { msg with Priority := (priority % 256).toNat })

/-- `parseVersion`: optional 0 to 2 digit field before the first space. -/
def parseVersion : ParseFunc := fun buf msg =>
  let (versionBytes, _) := buf.Peek maxVersionLength
  let l := versionBytes.length
  if l = 0 || (1 ≤ l && versionBytes.getD 0 0 = spaceByte) then .ok (buf, msg)
  else
    let versionBytes :=
      if l = 2 && versionBytes.getD 1 0 = spaceByte then versionBytes.take 1
      else versionBytes
    let l := versionBytes.length
    match ParseUint versionBytes with
    | none =>
      .error (newFormatError buf.Pos ("version not a number: " ++ bytesToStr versionBytes))
    | some version =>
      let (buf1, n) := buf.Discard l
      if n ≠ l then .error Err.eof
      else .ok (buf1, { msg with Version := version })

/-- `parseSingleValue`: a bounded value ending at a space (or at end of
input), with the nil marker allowed for the optional header fields; a
trailing space or `]` is put back for the next step. -/
def parseSingleValue (buf : Buffer) (name : String) (allowNilValue : Bool)
    (maxLength : Nat) : Except Err (List Nat × Buffer) :=
  match (if allowNilValue then nextIsNilValue buf else (false, buf)) with
  | (true, buf1) => .ok ([], buf1)
  | (false, buf1) =>
    let (value, buf2, eof) := buf1.ReadSlice spaceByte
    let l := value.length
    if eof && l = 0 then .error Err.eof
    else
      let maxLength := if eof then maxLength else maxLength + 1
      if l > maxLength then
        .error (newFormatError (buf2.Pos - l + 1) (name ++ " too long"))
      else
        -- value[l-1]: the list is nonempty in every path that reaches here.
        let b := value.getLastD 0
        if b = spaceByte || b = dataEnd then
          match buf2.UnreadByte with
          | some buf3 => .ok (value.dropLast, buf3)
          | none => .error (Err.panicked "syslog: can't unread byte")
        else .ok (value, buf2)

def parseHostname : ParseFunc := fun buf msg =>
  match parseSingleValue buf "hostname" true maxHostnameLength with
  | .error e => .error e
  | .ok (hostname, buf1) => .ok (buf1, { msg with Hostname := hostname })

def parseAppname : ParseFunc := fun buf msg =>
  match parseSingleValue buf "appname" true maxAppNameLength with
  | .error e => .error e
  | .ok (appname, buf1) => .ok (buf1, { msg with Appname := appname })

def parseProcessID : ParseFunc := fun buf msg =>
  match parseSingleValue buf "processID" true maxProcessIDLength with
  | .error e => .error e
  | .ok (processID, buf1) => .ok (buf1, { msg with ProcessID := processID })

def parseMessageID : ParseFunc := fun buf msg =>
  match parseSingleValue buf "messageID" true maxMessageIDLength with
  | .error e => .error e
  | .ok (messageID, buf1) => .ok (buf1, { msg with MessageID := messageID })

/-- `parseParamName`: scan to `=`; the mutated cursor is returned next to
the result because `parseData` keeps using it after the `io.EOF` break. -/
def parseParamName (buf : Buffer) : Buffer × Except Err (List Nat) :=
  let (nameBytes, buf1, eof) := buf.ReadSlice equalByte
  if eof then (buf1, .error Err.eof)
  else
    let nameBytes := nameBytes.dropLast
    if nameBytes.length > maxDataParamLength then
      (buf1, .error (newFormatError (buf1.Pos - nameBytes.length) "data param name too long"))
    else (buf1, .ok nameBytes)

/-- `parseParamValue`: a quote, then scan to the closing quote (`io.EOF` is
tolerated and the final byte dropped); when the opening quote was the last
byte Go slices `paramValue[:-1]` and panics. -/
def parseParamValue (buf : Buffer) : Except Err (List Nat × Buffer) :=
  match checkByte buf qouteByte with
  | .error e => .error e
  | .ok buf1 =>
    let (paramValue, buf2, _) := buf1.ReadSlice qouteByte
    if paramValue.length = 0 then .error (Err.panicked "runtime error: slice bounds out of range")
    else .ok (paramValue.dropLast, buf2)

/-! ### parseData

The two nested loops of `parseData` are bounded-fuel structural recursions;
every continuing iteration of either loop consumes at least one byte, so the
fuel `maxRead + 2` supplied at the entry point is never exhausted (see
`parseGroups_fuel` below).  In Go the group's inner map is filled in place;
here the group is collected from `[]` and written with `mapSet` when the
group ends, which is observationally the same because on a mid-group error
the whole structured-data section is discarded. -/

def parseParams : Nat → Buffer → PMap → Except Err (PMap × Buffer)
  | 0, _, _ => .error (Err.panicked "syslog model: fuel exhausted")
  | fuel + 1, buf, params =>
    match parseParamName buf with
    | (buf1, .error e) => if e = Err.eof then .ok (params, buf1) else .error e
    | (buf1, .ok paramName) =>
      match parseParamValue buf1 with
      | .error e => .error e
      | .ok (paramValue, buf2) =>
        let params := if paramValue ≠ nilValue then mapSet params paramName paramValue else params
        match buf2.ReadByte with
        | (_, _, true) => .error Err.eof
        | (c, buf3, false) =>
          if c = dataEnd then .ok (params, buf3)
          else if c ≠ spaceByte then
            .error (newFormatError buf3.Pos
              ("expected byte '" ++ byteStr dataEnd ++ "' or '" ++ byteStr spaceByte ++
                "', but got '" ++ byteStr c ++ "'"))
          else parseParams fuel buf3 params

def parseGroups : Nat → Buffer → DMap → Except Err (DMap × Buffer)
  | 0, _, _ => .error (Err.panicked "syslog model: fuel exhausted")
  | fuel + 1, buf, data =>
    match parseSingleValue buf "data-ID" false maxDataIDLength with
    | .error e => .error e
    | .ok (dataID, buf1) =>
      let buf2 := buf1.ReadByte.2.1  -- read next space, result and error ignored
      match parseParams fuel buf2 [] with
      | .error e => .error e
      | .ok (params, buf3) =>
        let data := mapSet data dataID params
        match buf3.ReadByte with
        | (_, buf4, true) => .ok (data, buf4)
        | (c, buf4, false) =>
          if c = spaceByte then
            match buf4.UnreadByte with
            | some buf5 => .ok (data, buf5)
            | none => .error (Err.panicked "syslog: can't unread byte")
          else if c ≠ dataStart then
            .error (newFormatError buf4.Pos
              ("expected byte '" ++ byteStr spaceByte ++ "' or '" ++ byteStr dataEnd ++
                "', but got '" ++ byteStr c ++ "'"))
          else parseGroups fuel buf4 data

/-- `parseData`: the nil marker, or `[` starting one or more groups. -/
def parseData : ParseFunc := fun buf msg =>
  match nextIsNilValue buf with
  | (true, buf1) => .ok (buf1, msg)
  | (false, buf1) =>
    match checkByte buf1 dataStart with
    | .error e => .error e
    | .ok buf2 =>
      match parseGroups (buf2.maxRead + 2) buf2 [] with
      | .error e => .error e
      | .ok (data, buf3) => .ok (buf3, { msg with Data := data })

/-- `parseMsg`: all remaining bytes, whitespace- and BOM-trimmed. -/
def parseMsg : ParseFunc := fun buf msg =>
  let (messageBytes, buf1) := buf.ReadAll
  let messageBytes := trimSpace messageBytes
  let messageBytes := trimPrefix messageBytes bom
  let messageBytes := trimSpace messageBytes
  .ok (buf1, { msg with Message := messageBytes })

/-! ## Combinators and derived steps (helpers.go, parsers.go) -/

/-- `discard(n)`: exactly `n` bytes or `io.EOF`. -/
def discard (n : Nat) : ParseFunc := fun buf msg =>
  let (buf1, nn) := buf.Discard n
  if nn ≠ n then .error Err.eof else .ok (buf1, msg)

/-- `discardByte(c)`: `checkByte` as a step. -/
def discardByte (c : Nat) : ParseFunc := fun buf msg =>
  match checkByte buf c with
  | .error e => .error e
  | .ok buf1 => .ok (buf1, msg)

/-- `discardUntil(c)`: scan through the first `c`, `io.EOF` when absent. -/
def discardUntil (c : Nat) : ParseFunc := fun buf msg =>
  let (_, buf1, eof) := buf.ReadSlice c
  if eof then .error Err.eof else .ok (buf1, msg)

/-- `discardSpace`: shortcut for `checkByte` with a space. -/
def discardSpace : ParseFunc := fun buf msg =>
  match checkByte buf spaceByte with
  | .error e => .error e
  | .ok buf1 => .ok (buf1, msg)

/-- The sequencing loop shared by `optional` and the driver: run each step
in order, stopping at the first error. -/
def runFns : List ParseFunc → Buffer → Message → Except Err (Buffer × Message)
  | [], buf, msg => .ok (buf, msg)
  | fn :: fns, buf, msg =>
    match fn buf msg with
    | .error e => .error e
    | .ok (buf1, msg1) => runFns fns buf1 msg1

/-- `optional(peekLength, fns...)`: peek once; skip the whole block on
`io.EOF`, otherwise run every wrapped step as required.  (The name carries a
prime because core Lean already takes `optional`.) -/
def optional' (peekLength : Nat) (fns : List ParseFunc) : ParseFunc := fun buf msg =>
  match buf.Peek peekLength with
  | (_, true) => .ok (buf, msg)
  | (_, false) => runFns fns buf msg

/-- `calculateFacility`: derive `Facility` from the already-set priority. -/
def calculateFacility : ParseFunc := fun buf msg =>
  .ok (buf, { msg with Facility := CalculateFacility msg.Priority })

/-- `calculateSeverity`: derive `Severity` from the already-set priority. -/
def calculateSeverity : ParseFunc := fun buf msg =>
  .ok (buf, { msg with Severity := CalculateSeverity msg.Priority })

/-! ## Timestamps

`parseTimestamp` hands a fixed-width window of the input to the Go standard
library (`time.ParseInLocation`).  The two layouts the RFC5424 format uses
are `time.RFC3339` (width 25) and `time.RFC3339Nano` (width 35); both accept
`YYYY-MM-DDTHH:MM:SS`, an optional fraction, and a `Z` or `±HH:MM` zone, and
reject trailing bytes inside the window.  The model below validates the
field ranges the way Go does except for the day-of-month versus month and
leap-year interaction (it allows day 1 to 31 in every month); no theorem in
this development depends on the non-nil timestamp path. -/

inductive TimeLayout where
  | rfc3339
  | rfc3339nano
deriving DecidableEq, Repr

/-- `len(format)`: the byte width `parseTimestampf` peeks. -/
def TimeLayout.width : TimeLayout → Nat
  | .rfc3339 => 25
  | .rfc3339nano => 35

def digit2 : List Nat → Option (Nat × List Nat)
  | a :: b :: rest =>
    if isDigit a && isDigit b then some ((a - 48) * 10 + (b - 48), rest) else none
  | _ => none

def digit4 : List Nat → Option (Nat × List Nat)
  | a :: b :: c :: d :: rest =>
    if isDigit a && isDigit b && isDigit c && isDigit d then
      some (((a - 48) * 10 + (b - 48)) * 100 + (c - 48) * 10 + (d - 48), rest)
    else none
  | _ => none

def expectByte (c : Nat) : List Nat → Option (List Nat)
  | c2 :: rest => if c2 = c then some rest else none
  | [] => none

/-- An optional fraction `.d{1,9}` after the seconds, as nanoseconds. -/
def parseFraction (l : List Nat) : Nat × List Nat :=
  match l with
  | 46 :: rest =>
    let ds := rest.takeWhile isDigit
    if ds.length = 0 || ds.length > 9 then (0, l)
    else
      (ds.foldl (fun acc c => acc * 10 + (c - 48)) 0 * 10 ^ (9 - ds.length),
        rest.drop ds.length)
  | _ => (0, l)

/-- The zone suffix: `Z`, or `+HH:MM` / `-HH:MM`, ending the window. -/
def parseZone (l : List Nat) : Option Int :=
  match l with
  | [90] => some 0
  | sign :: rest =>
    if sign = 43 || sign = 45 then
      match digit2 rest with
      | none => none
      | some (h, rest1) =>
        match expectByte colonByte rest1 with
        | none => none
        | some rest2 =>
          match digit2 rest2 with
          | none => none
          | some (m, rest3) =>
            if rest3 = [] && h ≤ 23 && m ≤ 59 then
              some (if sign = 45 then -((h * 60 + m : Nat) : Int) else ((h * 60 + m : Nat) : Int))
            else none
    else none
  | _ => none

/-- The whole fixed-width window as one timestamp value. -/
def goTimeParse (l : List Nat) : Option GoTime := do
  let (year, l) ← digit4 l
  let l ← expectByte 45 l
  let (month, l) ← digit2 l
  let l ← expectByte 45 l
  let (day, l) ← digit2 l
  let l ← expectByte 84 l
  let (hour, l) ← digit2 l
  let l ← expectByte colonByte l
  let (minute, l) ← digit2 l
  let l ← expectByte colonByte l
  let (second, l) ← digit2 l
  let (nanos, l) := parseFraction l
  let tzMinutes ← parseZone l
  if 1 ≤ month && month ≤ 12 && 1 ≤ day && day ≤ 31 &&
      hour ≤ 23 && minute ≤ 59 && second ≤ 59 then
    some { year, month, day, hour, minute, second, nanos, tzMinutes }
  else none

/-- `parseTimestampf`: peek the layout's width, parse the whole window, then
discard it.  Any failure (including the short-window `io.EOF`) makes the
caller try the next layout, so failures are collapsed into `none`. -/
def parseTimestampf (buf : Buffer) (layout : TimeLayout) : Option (GoTime × Buffer) :=
  match buf.Peek layout.width with
  | (_, true) => none
  | (timeBytes, false) =>
    match goTimeParse timeBytes with
    | none => none
    | some t => some (t, (buf.Discard layout.width).1)

def tryTimestampFormats : List TimeLayout → Buffer → Option (GoTime × Buffer)
  | [], _ => none
  | layout :: rest, buf =>
    match parseTimestampf buf layout with
    | some r => some r
    | none => tryTimestampFormats rest buf

/-- `parseTimestamp(formats...)`: panics when constructed with no formats;
otherwise the nil marker, or the first layout that parses. -/
def parseTimestamp (formats : List TimeLayout) : ParseFunc := fun buf msg =>
  if formats = [] then .error (Err.panicked "syslog: no formats supplied to parseTimestamp")
  else
    match nextIsNilValue buf with
    | (true, buf1) => .ok (buf1, msg)
    | (false, buf1) =>
      match tryTimestampFormats formats buf1 with
      | some (timestamp, buf2) => .ok (buf2, { msg with Timestamp := some timestamp })
      | none =>
        .error (newFormatError buf1.Pos "timestamp is not following an accepted format")

/-! ## The RFC5424 format and the driver (formats.go, part_001) -/

def rfc5424Format : List ParseFunc :=
  [ parsePriority,
    calculateFacility,
    calculateSeverity,
    parseVersion,
    discardSpace,
    parseTimestamp [TimeLayout.rfc3339, TimeLayout.rfc3339nano],
    discardSpace,
    parseHostname,
    discardSpace,
    parseAppname,
    discardSpace,
    parseProcessID,
    discardSpace,
    parseMessageID,
    discardSpace,
    parseData,
    optional' 2 [discardSpace, parseMsg] ]

def RFC5424 : List ParseFunc := rfc5424Format

/-- The driver loop of `ParseMessage`: run each step, stop at the first
error, and translate the sentinel `io.EOF` into `io.ErrUnexpectedEOF`. -/
def parseLoop : List ParseFunc → Buffer → Message → Except Err Message
  | [], _, msg => .ok msg
  | fn :: fns, buf, msg =>
    match fn buf msg with
    | .error e => .error (match e with | Err.eof => Err.unexpectedEOF | e2 => e2)
    | .ok (buf1, msg1) => parseLoop fns buf1 msg1

/-- `ParseMessage`: parse one log line with the given format. -/
def ParseMessage (b : List Nat) (format : List ParseFunc) : Except Err Message :=
  parseLoop format (newBuffer b) emptyMessage

/-! ## Serialization (Message.Bytes, part_001)

The encode-side counterpart: `String()`/`Bytes()` render the record back to
RFC5424 text.  `strconv.AppendUint` is decimal digits; `strconv.AppendQuote`
wraps the value in double quotes, escaping backslashes, quotes, the named
control characters and (for the non-UTF-8 bytes of this byte-level model)
other bytes as `\xHH`. -/

def natDec (n : Nat) : List Nat := strBytes (Nat.repr n)

def appendUint (b : List Nat) (n : Nat) : List Nat := b ++ natDec n

def padLeft (width : Nat) (l : List Nat) : List Nat :=
  List.replicate (width - l.length) 48 ++ l

def pad2 (n : Nat) : List Nat := padLeft 2 (natDec n)

def pad4 (n : Nat) : List Nat := padLeft 4 (natDec n)

def pad9 (n : Nat) : List Nat := padLeft 9 (natDec n)

/-- `time.RFC3339Nano` formatting drops trailing zeros of the fraction. -/
def stripZeros (l : List Nat) : List Nat :=
  (l.reverse.dropWhile (fun c => c = 48)).reverse

def formatRFC3339Nano (t : GoTime) : List Nat :=
  pad4 t.year ++ [45] ++ pad2 t.month ++ [45] ++ pad2 t.day ++ [84] ++
  pad2 t.hour ++ [58] ++ pad2 t.minute ++ [58] ++ pad2 t.second ++
  (if t.nanos = 0 then [] else [46] ++ stripZeros (pad9 t.nanos)) ++
  (if t.tzMinutes = 0 then [90]
   else (if t.tzMinutes < 0 then [45] else [43]) ++
     pad2 (t.tzMinutes.natAbs / 60) ++ [58] ++ pad2 (t.tzMinutes.natAbs % 60))

def hexDigit (n : Nat) : Nat := if n < 10 then 48 + n else 87 + n

def quoteByteEsc (c : Nat) : List Nat :=
  if c = 34 then [92, 34]
  else if c = 92 then [92, 92]
  else if c = 7 then [92, 97]
  else if c = 8 then [92, 98]
  else if c = 12 then [92, 102]
  else if c = 10 then [92, 110]
  else if c = 13 then [92, 114]
  else if c = 9 then [92, 116]
  else if c = 11 then [92, 118]
  else if 32 ≤ c && c ≤ 126 then [c]
  else [92, 120, hexDigit (c / 16), hexDigit (c % 16)]

/-- `strconv.AppendQuote(b, value)`. -/
def AppendQuote (b : List Nat) (value : List Nat) : List Nat :=
  b ++ [qouteByte] ++ (value.map quoteByteEsc).flatten ++ [qouteByte]

/-- Lexicographic byte order, as `sort.Strings` compares Go strings. -/
def lexLt : List Nat → List Nat → Bool
  | [], [] => false
  | [], _ :: _ => true
  | _ :: _, [] => false
  | a :: as, b :: bs => if a < b then true else if b < a then false else lexLt as bs

def insertKey (x : List Nat) : List (List Nat) → List (List Nat)
  | [] => [x]
  | y :: ys => if lexLt x y then x :: y :: ys else y :: insertKey x ys

def sortKeys : List (List Nat) → List (List Nat)
  | [] => []
  | x :: xs => insertKey x (sortKeys xs)

def getSortedMapKeys (m : PMap) : List (List Nat) := sortKeys (m.map Prod.fst)

def getSortedMapMapKeys (m : DMap) : List (List Nat) := sortKeys (m.map Prod.fst)

def addTimestamp (b : List Nat) (t : Option GoTime) : List Nat :=
  (match t with
   | none => b ++ [nilValueByte]
   | some tv => b ++ formatRFC3339Nano tv) ++ [spaceByte]

/-- `addValue`: a value and a space, the nil marker for an empty value. -/
def addValue (b : List Nat) (value : List Nat) : List Nat :=
  (if value = [] then b ++ [nilValueByte] else b ++ trimSpace value) ++ [spaceByte]

/-- `addData`: `[dataId name="value" ...]...`, keys sorted for determinism. -/
def addData (b : List Nat) (data : DMap) : List Nat :=
  if data.length = 0 then b ++ [nilValueByte]
  else
    (getSortedMapMapKeys data).foldl
      (fun b dataID =>
        let params := (mapGet data dataID).getD []
        let b := b ++ [dataStart] ++ dataID
        let b := (getSortedMapKeys params).foldl
          (fun b name =>
            AppendQuote (b ++ [spaceByte] ++ name ++ [equalByte])
              ((mapGet params name).getD []))
          b
        b ++ [dataEnd])
      b

/-- A root-level alias for the record type: inside the `Message` namespace
the bare name `Message` would resolve to the record's own `Message` field. -/
abbrev MessageT := Message

/-- `Message.Bytes`: the record in RFC5424 form. -/
def Message.Bytes (msg : MessageT) : List Nat :=
  let b : List Nat := []
  let b := b ++ [priorityStart]
  let b := appendUint b msg.Priority
  let b := b ++ [priorityEnd]
  let b := if msg.Version ≠ 0 then appendUint b msg.Version else b
  let b := b ++ [spaceByte]
  let b := addTimestamp b msg.Timestamp
  let b := addValue b msg.Hostname
  let b := addValue b msg.Appname
  let b := addValue b msg.ProcessID
  let b := addValue b msg.MessageID
  let b := addData b msg.Data
  if msg.Message ≠ [] then b ++ [spaceByte] ++ msg.Message else b

/-- Well-formedness of a cursor: the position never passes the end.  Every
buffer operation preserves it and `newBuffer` establishes it. -/
def Buffer.wf (buf : Buffer) : Prop := buf.position ≤ buf.bytes.length

/-! # Helper lemmas -/

theorem findByte_of_not_mem {c : Nat} {l : List Nat} (h : c ∉ l) : findByte c l = none := by
  induction l with
  | nil => rfl
  | cons x xs ih =>
    simp only [findByte]
    rw [if_neg, ih (fun hm => h (List.mem_cons_of_mem x hm))]
    · simp [Option.map]
    · intro hx
      exact h (hx ▸ List.mem_cons_self x xs)

theorem findByte_append (c : Nat) (pre post : List Nat) (h : c ∉ pre) :
    findByte c (pre ++ c :: post) = some pre.length := by
  induction pre with
  | nil => simp [findByte]
  | cons x xs ih =>
    have hx : x ≠ c := fun hx => h (hx ▸ List.mem_cons_self x xs)
    have hxs : c ∉ xs := fun hm => h (List.mem_cons_of_mem x hm)
    simp only [List.cons_append, findByte, if_neg hx, List.length_cons, List.append_eq]
    rw [ih hxs]
    rfl

theorem take_length_succ_append (pre : List Nat) (x : Nat) (post : List Nat) :
    (pre ++ x :: post).take (pre.length + 1) = pre ++ [x] := by
  induction pre with
  | nil => simp
  | cons a as ih => simp [List.take, ih]

theorem mapGet_mapSet {α : Type} (m : List (List Nat × α)) (k : List Nat) (v : α) :
    mapGet (mapSet m k v) k = some v := by
  induction m with
  | nil => simp [mapSet, mapGet]
  | cons p rest ih =>
    obtain ⟨k2, v2⟩ := p
    by_cases hk : k2 = k
    · simp [mapSet, mapGet, hk]
    · simp [mapSet, mapGet, hk, ih]

/-! # Claims -/

/-- C3: for every priority value `p` with `p ≤ 191`, the derived facility is
`⌊p/8⌋`, the derived severity is `p mod 8`, and `CalculatePriority` applied to
the two derived values returns `p` itself. -/
theorem priority_facility_severity_roundtrip (p : Nat) (h : p ≤ 191) :
    CalculateFacility p = p / 8 ∧ CalculateSeverity p = p % 8 ∧
      CalculatePriority (CalculateFacility p) (CalculateSeverity p) = p := by
  refine ⟨rfl, ?_, ?_⟩
  · simp only [CalculateSeverity, multiplier]
    omega
  · simp only [CalculatePriority, CalculateFacility, CalculateSeverity, multiplier]
    omega

theorem priority_facility_severity_roundtrip_witness :
    CalculateFacility 191 = 191 / 8 ∧ CalculateSeverity 191 = 191 % 8 ∧
      CalculatePriority (CalculateFacility 191) (CalculateSeverity 191) = 191 :=
  priority_facility_severity_roundtrip 191 (by decide)

/-- C10: `CalculatePriority` computes `facility*8 + severity` modulo 256 (the
`uint8` conversion of the `int` sum), and the wrap can alias a priority that
`IsValid` accepts: facility 32 with severity 0 yields priority 0, reported
valid. -/
theorem calculatePriority_wraps :
    (∀ facility severity : Nat,
        CalculatePriority facility severity = (facility * 8 + severity) % 256) ∧
      CalculatePriority 32 0 = 0 ∧ PriorityIsValid (CalculatePriority 32 0) = true :=
  ⟨fun _ _ => rfl, rfl, rfl⟩

/-- C8 counterexample: after two successful single-byte reads, two consecutive
`UnreadByte` calls both succeed — the second one undoes more than the last
read, and the code does not panic (`none` would model the panic). -/
theorem unreadByte_undo_two_no_panic :
    ((newBuffer [97, 98]).ReadByte.2.1.ReadByte.2.1.UnreadByte.bind Buffer.UnreadByte) =
        some (newBuffer [97, 98]) ∧
      ((newBuffer [97, 98]).ReadByte.2.1.ReadByte.2.1.UnreadByte.bind Buffer.UnreadByte) ≠
        none := by
  exact ⟨rfl, by decide⟩

/-- C8 amended: the read primitives only move the position forward, and
`UnreadByte` moves it back by exactly one, panicking exactly when the
position is already 0 (no byte was ever read); the one-step-per-read
discipline is a usage convention the code does not enforce. -/
theorem unreadByte_spec :
    (∀ buf : Buffer, buf.position = 0 → buf.UnreadByte = none) ∧
    (∀ buf : Buffer, 0 < buf.position →
        buf.UnreadByte = some { buf with position := buf.position - 1 }) ∧
    (∀ (buf : Buffer) (n : Nat), buf.position ≤ ((buf.Discard n).1).position) ∧
    (∀ buf : Buffer, buf.position ≤ buf.ReadByte.2.1.position) ∧
    (∀ (buf : Buffer) (c : Nat), buf.position ≤ buf.bytes.length →
        buf.position ≤ ((buf.ReadSlice c).2.1).position) ∧
    (∀ buf : Buffer, buf.position ≤ buf.bytes.length →
        buf.position ≤ buf.ReadAll.2.position) := by
  refine ⟨?_, ?_, ?_, ?_, ?_, ?_⟩
  · intro buf h
    simp [Buffer.UnreadByte, h]
  · intro buf h
    simp [Buffer.UnreadByte, Nat.ne_of_gt h]
  · intro buf n
    simp only [Buffer.Discard]
    omega
  · intro buf
    simp only [Buffer.ReadByte]
    split <;> simp
  · intro buf c h
    simp only [Buffer.ReadSlice]
    split <;> simp [Buffer.length] <;> omega
  · intro buf h
    simpa [Buffer.ReadAll, Buffer.length] using h

theorem unreadByte_spec_witness :
    (newBuffer [97]).UnreadByte = none ∧
      ({ bytes := [97], position := 1 } : Buffer).UnreadByte =
        some { bytes := [97], position := 0 } := by
  exact ⟨unreadByte_spec.1 (newBuffer [97]) rfl,
    unreadByte_spec.2.1 { bytes := [97], position := 1 } (by decide)⟩

/-- C7: for every cursor and delimiter, `ReadSlice` returns the bytes from
the current position through the first occurrence of the delimiter
inclusive and advances just past it; when the delimiter does not occur in
the remaining bytes it returns all of them, signals `io.EOF`, and leaves
the position at the end of the input. -/
theorem ReadSlice_spec (buf : Buffer) (c : Nat) :
    (∀ pre post, buf.bytes.drop buf.position = pre ++ c :: post → c ∉ pre →
        buf.ReadSlice c =
          (pre ++ [c], { buf with position := buf.position + pre.length + 1 }, false)) ∧
      (c ∉ buf.bytes.drop buf.position →
        buf.ReadSlice c =
          (buf.bytes.drop buf.position, { buf with position := buf.bytes.length }, true)) := by
  constructor
  · intro pre post hsplit hpre
    simp only [Buffer.ReadSlice, hsplit, findByte_append c pre post hpre,
      take_length_succ_append]
  · intro hmem
    simp only [Buffer.ReadSlice, findByte_of_not_mem hmem, Buffer.length]

theorem ReadSlice_spec_witness :
    (newBuffer (strBytes "ab cd")).ReadSlice spaceByte =
        (strBytes "ab ", { bytes := strBytes "ab cd", position := 3 }, false) ∧
      (newBuffer (strBytes "abcd")).ReadSlice spaceByte =
        (strBytes "abcd", { bytes := strBytes "abcd", position := 4 }, true) := by
  constructor
  · exact (ReadSlice_spec (newBuffer (strBytes "ab cd")) spaceByte).1
      (strBytes "ab") (strBytes "cd") (by decide) (by decide)
  · exact (ReadSlice_spec (newBuffer (strBytes "abcd")) spaceByte).2 (by decide)

/-- C4: `optional(n, steps)` peeks `n` bytes exactly once; with fewer than
`n` bytes remaining the whole block succeeds as a no-op (cursor and record
unchanged, no step runs), otherwise the wrapped steps run in order exactly
as if unwrapped — after a successful first step the rest run with no
further insufficient-input check, and the first failing step fails the
whole block with that step's error. -/
theorem optional_spec :
    (∀ (n : Nat) (fns : List ParseFunc) (buf : Buffer) (msg : Message),
        buf.maxRead < n → optional' n fns buf msg = .ok (buf, msg)) ∧
    (∀ (n : Nat) (fns : List ParseFunc) (buf : Buffer) (msg : Message),
        n ≤ buf.maxRead → optional' n fns buf msg = runFns fns buf msg) ∧
    (∀ (n : Nat) (fn : ParseFunc) (fns : List ParseFunc) (buf : Buffer) (msg : Message)
        (s : Buffer × Message), n ≤ buf.maxRead → fn buf msg = .ok s →
        optional' n (fn :: fns) buf msg = runFns fns s.1 s.2) ∧
    (∀ (n : Nat) (fn : ParseFunc) (fns : List ParseFunc) (buf : Buffer) (msg : Message)
        (e : Err), n ≤ buf.maxRead → fn buf msg = .error e →
        optional' n (fn :: fns) buf msg = .error e) := by
  have hrun : ∀ (n : Nat) (fns : List ParseFunc) (buf : Buffer) (msg : Message),
      n ≤ buf.maxRead → optional' n fns buf msg = runFns fns buf msg := by
    intro n fns buf msg h
    simp only [optional', Buffer.Peek, if_neg (Nat.not_lt.mpr h)]
  refine ⟨?_, hrun, ?_, ?_⟩
  · intro n fns buf msg h
    simp only [optional', Buffer.Peek, if_pos h]
  · intro n fn fns buf msg s h hok
    obtain ⟨b1, m1⟩ := s
    rw [hrun n (fn :: fns) buf msg h]
    simp only [runFns, hok]
  · intro n fn fns buf msg e h herr
    rw [hrun n (fn :: fns) buf msg h]
    simp only [runFns, herr]

theorem optional_spec_witness :
    optional' 2 [discardSpace, parseMsg] (newBuffer (strBytes "x")) emptyMessage =
        .ok (newBuffer (strBytes "x"), emptyMessage) ∧
      optional' 2 [discardSpace, parseMsg] (newBuffer (strBytes "xy")) emptyMessage =
        runFns [discardSpace, parseMsg] (newBuffer (strBytes "xy")) emptyMessage := by
  constructor
  · exact optional_spec.1 2 [discardSpace, parseMsg] (newBuffer (strBytes "x"))
      emptyMessage (by decide)
  · exact optional_spec.2.1 2 [discardSpace, parseMsg] (newBuffer (strBytes "xy"))
      emptyMessage (by decide)

/-- C9 counterexample: a `checkByte` mismatch on the very first byte of the
input is reported at offset 1, not at offset 0 as the claim states — the
value the repository's own `TestParsePriority` expects. -/
theorem checkByte_first_byte_offset_one :
    checkByte (newBuffer (strBytes "!")) priorityStart =
        .error (Err.formatErr 1 "expected byte '<', but got '!'") ∧
      checkByte (newBuffer (strBytes "!")) priorityStart ≠
        .error (Err.formatErr 0 "expected byte '<', but got '!'") :=
  ⟨rfl, by decide⟩

/-- C9 amended: every `checkByte` format error carries a one-based byte
offset into the original input (the modelled `Pos` is `position + 1`)
together with an expected-versus-actual reason; a mismatch at zero-based
input position `p` is reported at offset `p + 1`, so a mismatch on the very
first byte reports offset 1. -/
theorem checkByte_offset_spec (buf : Buffer) (expected : Nat)
    (hlt : buf.position < buf.bytes.length)
    (hne : buf.bytes.getD buf.position 0 ≠ expected) :
    checkByte buf expected =
      .error (Err.formatErr (buf.position + 1)
        ("expected byte '" ++ byteStr expected ++ "', but got '" ++
          byteStr (buf.bytes.getD buf.position 0) ++ "'")) := by
  simp only [checkByte, Buffer.ReadByte, Buffer.length, Buffer.Pos,
    if_neg (Nat.ne_of_lt hlt), if_neg hne]
  rfl

theorem checkByte_offset_spec_witness :
    checkByte (newBuffer (strBytes "!abc")) priorityStart =
      .error (Err.formatErr 1 "expected byte '<', but got '!'") := by
  exact checkByte_offset_spec (newBuffer (strBytes "!abc")) priorityStart
    (by decide) (by decide)

/-! ### The driver (C1) -/

theorem runFns_append (fns gns : List ParseFunc) (buf : Buffer) (msg : Message) :
    runFns (fns ++ gns) buf msg =
      match runFns fns buf msg with
      | .error e => .error e
      | .ok s => runFns gns s.1 s.2 := by
  induction fns generalizing buf msg with
  | nil => rfl
  | cons fn fns ih =>
    simp only [List.cons_append, runFns]
    cases hfn : fn buf msg with
    | error e => rfl
    | ok s =>
      obtain ⟨b1, m1⟩ := s
      exact ih b1 m1

theorem parseLoop_eq_runFns (fns : List ParseFunc) (buf : Buffer) (msg : Message) :
    parseLoop fns buf msg =
      match runFns fns buf msg with
      | .error e => .error (match e with | Err.eof => Err.unexpectedEOF | e2 => e2)
      | .ok s => .ok s.2 := by
  induction fns generalizing buf msg with
  | nil => rfl
  | cons fn fns ih =>
    simp only [parseLoop, runFns]
    cases hfn : fn buf msg with
    | error e => rfl
    | ok s =>
      obtain ⟨b1, m1⟩ := s
      exact ih b1 m1

/-- C1: the driver applies the format's steps in their declared order and
stops at the first failing step: whenever the steps before a failing step
succeed, the whole parse returns that step's error (no later step runs and
no record is returned), with the insufficient-input sentinel translated to
the distinct message-incomplete error; a record is returned exactly when
every step succeeds, and the raw sentinel never escapes. -/
theorem ParseMessage_driver_spec :
    (∀ (pre : List ParseFunc) (fn : ParseFunc) (post : List ParseFunc) (b : List Nat)
        (s : Buffer × Message) (e : Err),
        runFns pre (newBuffer b) emptyMessage = .ok s → fn s.1 s.2 = .error e →
        ParseMessage b (pre ++ fn :: post) =
          .error (match e with | Err.eof => Err.unexpectedEOF | e2 => e2)) ∧
    (∀ (format : List ParseFunc) (b : List Nat) (s : Buffer × Message),
        runFns format (newBuffer b) emptyMessage = .ok s →
        ParseMessage b format = .ok s.2) ∧
    (∀ (format : List ParseFunc) (b : List Nat) (m : Message),
        ParseMessage b format = .ok m →
        ∃ s : Buffer × Message,
          runFns format (newBuffer b) emptyMessage = .ok s ∧ s.2 = m) ∧
    (∀ (format : List ParseFunc) (b : List Nat),
        ParseMessage b format ≠ .error Err.eof) := by
  refine ⟨?_, ?_, ?_, ?_⟩
  · intro pre fn post b s e hpre hfn
    obtain ⟨b1, m1⟩ := s
    rw [ParseMessage, parseLoop_eq_runFns, runFns_append, hpre]
    simp only [runFns, hfn]
  · intro format b s hok
    rw [ParseMessage, parseLoop_eq_runFns, hok]
  · intro format b m hok
    rw [ParseMessage, parseLoop_eq_runFns] at hok
    cases hrun : runFns format (newBuffer b) emptyMessage with
    | error e =>
      rw [hrun] at hok
      cases e <;> simp at hok
    | ok s =>
      rw [hrun] at hok
      simp only [Except.ok.injEq] at hok
      exact ⟨s, rfl, hok⟩
  · intro format b h
    rw [ParseMessage, parseLoop_eq_runFns] at h
    cases hrun : runFns format (newBuffer b) emptyMessage with
    | error e =>
      rw [hrun] at h
      cases e <;> simp at h
    | ok s =>
      rw [hrun] at h
      exact Except.noConfusion h

theorem ParseMessage_driver_spec_witness :
    ParseMessage (strBytes "<1>x") [parsePriority, discardSpace, parseMsg] =
      .error (Err.formatErr 4 "expected byte ' ', but got 'x'") := by
  exact ParseMessage_driver_spec.1 [parsePriority] discardSpace [parseMsg]
    (strBytes "<1>x")
    ({ bytes := strBytes "<1>x", position := 3 }, { emptyMessage with Priority := 1 })
    (Err.formatErr 4 "expected byte ' ', but got 'x'") rfl rfl

/-! ### parsePriority (C5) -/

theorem dropLast_append_single (pre : List Nat) (x : Nat) :
    (pre ++ [x]).dropLast = pre := by simp

/-- Evaluation of `parsePriority` on an input whose priority section is
delimited: `<` then `pre` (free of `>`), then `>` and arbitrary bytes. -/
theorem parsePriority_eval (msg : Message) (pre post : List Nat)
    (h : priorityEnd ∉ pre) :
    parsePriority (newBuffer (priorityStart :: pre ++ priorityEnd :: post)) msg =
      if 3 < pre.length then .error (Err.formatErr 5 "priority too long")
      else if pre.length = 0 then .error (Err.formatErr 2 "priority can't be empty")
      else
        match Atoi pre with
        | none => .error (Err.formatErr 2 ("priority not a number: " ++ bytesToStr pre))
        | some n =>
          .ok ({ bytes := priorityStart :: pre ++ priorityEnd :: post,
                 position := pre.length + 2 },
            { msg with Priority := (n % 256).toNat }) := by
  have hcb : checkByte (newBuffer (priorityStart :: pre ++ priorityEnd :: post))
      priorityStart =
      .ok { bytes := priorityStart :: pre ++ priorityEnd :: post, position := 1 } := by
    simp [checkByte, Buffer.ReadByte, newBuffer, Buffer.length]
  have hrs : Buffer.ReadSlice
      { bytes := priorityStart :: pre ++ priorityEnd :: post, position := 1 }
      priorityEnd =
      (pre ++ [priorityEnd],
        { bytes := priorityStart :: pre ++ priorityEnd :: post,
          position := pre.length + 2 }, false) := by
    have hdrop : List.drop 1 (priorityStart :: pre ++ priorityEnd :: post) =
        pre ++ priorityEnd :: post := rfl
    simp only [Buffer.ReadSlice, hdrop, findByte_append priorityEnd pre post h,
      take_length_succ_append, Prod.mk.injEq, Buffer.mk.injEq]
    refine ⟨trivial, ⟨trivial, by omega⟩, trivial⟩
  simp only [parsePriority, hcb, hrs, Bool.false_eq_true, if_false,
    List.length_append, List.length_cons, List.length_nil, Nat.zero_add,
    dropLast_append_single, maxPriorityLength]
  by_cases h3 : 3 < pre.length
  · rw [if_pos (by omega : pre.length + 1 > 3 + 1), if_pos h3]
    rfl
  · rw [if_neg (by omega : ¬pre.length + 1 > 3 + 1), if_neg h3]
    by_cases h0 : pre.length = 0
    · rw [if_pos h0, if_pos h0]
      rfl
    · rw [if_neg h0, if_neg h0]
      cases hA : Atoi pre <;> rfl

/-- C5 counterexample: the enclosed content `-1` is not a numeric string of
digits, yet `parsePriority` succeeds (Go `strconv.Atoi` accepts a sign and
the `Priority(int)` conversion truncates −1 to 255) instead of failing with
one of the four priority errors. -/
theorem parsePriority_accepts_signed_content :
    parsePriority (newBuffer (strBytes "<-1>")) emptyMessage =
      .ok ({ bytes := strBytes "<-1>", position := 4 },
        { emptyMessage with Priority := 255 }) := rfl

/-- C5 amended: `parsePriority` succeeds on `<N>` whenever `N` is at most 3
bytes and parses under `strconv.Atoi` (digits with an optional sign),
storing `N` truncated to `uint8`; on an empty input it fails with the
insufficient-input sentinel, on a wrong first byte with an expected-versus-
actual error, and otherwise with the four distinct priority errors — the
too-long error carrying (one-based) offset 5, immediately after the three
allowed content bytes. -/
theorem parsePriority_spec :
    (∀ msg : Message, parsePriority (newBuffer []) msg = .error Err.eof) ∧
    (∀ (msg : Message) (c : Nat) (rest : List Nat), c ≠ priorityStart →
        parsePriority (newBuffer (c :: rest)) msg =
          .error (Err.formatErr 1
            ("expected byte '<', but got '" ++ byteStr c ++ "'"))) ∧
    (∀ (msg : Message) (rest : List Nat), priorityEnd ∉ rest →
        parsePriority (newBuffer (priorityStart :: rest)) msg =
          .error (Err.formatErr (min 5 (rest.length + 2)) "priority not closed")) ∧
    (∀ (msg : Message) (pre post : List Nat), priorityEnd ∉ pre → 3 < pre.length →
        parsePriority (newBuffer (priorityStart :: pre ++ priorityEnd :: post)) msg =
          .error (Err.formatErr 5 "priority too long")) ∧
    (∀ (msg : Message) (post : List Nat),
        parsePriority (newBuffer (priorityStart :: priorityEnd :: post)) msg =
          .error (Err.formatErr 2 "priority can't be empty")) ∧
    (∀ (msg : Message) (pre post : List Nat), priorityEnd ∉ pre →
        0 < pre.length → pre.length ≤ 3 → Atoi pre = none →
        parsePriority (newBuffer (priorityStart :: pre ++ priorityEnd :: post)) msg =
          .error (Err.formatErr 2 ("priority not a number: " ++ bytesToStr pre))) ∧
    (∀ (msg : Message) (pre post : List Nat) (n : Int), priorityEnd ∉ pre →
        0 < pre.length → pre.length ≤ 3 → Atoi pre = some n →
        parsePriority (newBuffer (priorityStart :: pre ++ priorityEnd :: post)) msg =
          .ok ({ bytes := priorityStart :: pre ++ priorityEnd :: post,
                 position := pre.length + 2 },
            { msg with Priority := (n % 256).toNat })) := by
  refine ⟨?_, ?_, ?_, ?_, ?_, ?_, ?_⟩
  · intro msg
    rfl
  · intro msg c rest hc
    have hpos : ¬((0 : Nat) = (c :: rest).length) := by simp
    simp only [parsePriority, checkByte, Buffer.ReadByte, newBuffer, Buffer.length,
      Buffer.Pos, if_neg hpos, List.getD_cons_zero, if_neg hc]
    rfl
  · intro msg rest hmem
    have hcb : checkByte (newBuffer (priorityStart :: rest)) priorityStart =
        .ok { bytes := priorityStart :: rest, position := 1 } := by
      simp [checkByte, Buffer.ReadByte, newBuffer, Buffer.length]
    have hdrop : List.drop 1 (priorityStart :: rest) = rest := rfl
    have hrs : Buffer.ReadSlice { bytes := priorityStart :: rest, position := 1 }
        priorityEnd =
        (rest, { bytes := priorityStart :: rest, position := rest.length + 1 }, true) := by
      simp only [Buffer.ReadSlice, hdrop, findByte_of_not_mem hmem, Buffer.length,
        List.length_cons, Prod.mk.injEq, Buffer.mk.injEq]
    simp only [parsePriority, hcb, hrs, if_true, Buffer.Pos, maxPriorityLength]
    have : (if 1 + 1 + 3 > rest.length + 1 + 1 then rest.length + 1 + 1
        else 1 + 1 + 3) = min 5 (rest.length + 2) := by
      split <;> omega
    rw [this]
    rfl
  · intro msg pre post hmem hlen
    rw [parsePriority_eval msg pre post hmem, if_pos hlen]
  · intro msg post
    have h0 : parsePriority (newBuffer (priorityStart :: ([] : List Nat) ++
        priorityEnd :: post)) msg =
        .error (Err.formatErr 2 "priority can't be empty") := by
      rw [parsePriority_eval msg [] post (by simp)]
      rfl
    simpa using h0
  · intro msg pre post hmem h0 h3 hA
    rw [parsePriority_eval msg pre post hmem, if_neg (by omega), if_neg (by omega), hA]
  · intro msg pre post n hmem h0 h3 hA
    rw [parsePriority_eval msg pre post hmem, if_neg (by omega), if_neg (by omega), hA]

theorem parsePriority_spec_witness :
    parsePriority (newBuffer (strBytes "<1923>")) emptyMessage =
        .error (Err.formatErr 5 "priority too long") ∧
      parsePriority (newBuffer (strBytes "<191>")) emptyMessage =
        .ok ({ bytes := strBytes "<191>", position := 5 },
          { emptyMessage with Priority := 191 }) := by
  constructor
  · exact parsePriority_spec.2.2.2.1 emptyMessage (strBytes "1923") []
      (by decide) (by decide)
  · have h := parsePriority_spec.2.2.2.2.2.2 emptyMessage (strBytes "191") [] 191
      (by decide) (by decide) (by decide) (by decide)
    simpa using h

/-- C6: inside `parseData`, a parsed `name="value"` pair whose value is the
nil marker is omitted (the group map is passed on unchanged, whether the
pair is followed by a space or closes the group), a non-nil pair is written
with the overwriting `mapSet` (so a repeated param name keeps the last
value), and each completed group is committed with `mapSet` under its
data-ID (so a later group with the same data-ID replaces the earlier inner
map); `mapGet` after `mapSet` always returns the newly written value. -/
theorem parseData_nil_and_overwrite :
    (∀ (fuel : Nat) (buf b1 b2 b3 : Buffer) (params : PMap) (name : List Nat),
        parseParamName buf = (b1, .ok name) →
        parseParamValue b1 = .ok (nilValue, b2) →
        b2.ReadByte = (spaceByte, b3, false) →
        parseParams (fuel + 1) buf params = parseParams fuel b3 params) ∧
    (∀ (fuel : Nat) (buf b1 b2 b3 : Buffer) (params : PMap) (name : List Nat),
        parseParamName buf = (b1, .ok name) →
        parseParamValue b1 = .ok (nilValue, b2) →
        b2.ReadByte = (dataEnd, b3, false) →
        parseParams (fuel + 1) buf params = .ok (params, b3)) ∧
    (∀ (fuel : Nat) (buf b1 b2 b3 : Buffer) (params : PMap) (name value : List Nat),
        parseParamName buf = (b1, .ok name) →
        parseParamValue b1 = .ok (value, b2) → value ≠ nilValue →
        b2.ReadByte = (spaceByte, b3, false) →
        parseParams (fuel + 1) buf params = parseParams fuel b3 (mapSet params name value)) ∧
    (∀ (fuel : Nat) (buf b1 b3 b4 : Buffer) (data : DMap) (dataID : List Nat)
        (params : PMap),
        parseSingleValue buf "data-ID" false maxDataIDLength = .ok (dataID, b1) →
        parseParams fuel b1.ReadByte.2.1 [] = .ok (params, b3) →
        b3.ReadByte = (dataStart, b4, false) →
        parseGroups (fuel + 1) buf data = parseGroups fuel b4 (mapSet data dataID params)) ∧
    (∀ (m : PMap) (k v : List Nat), mapGet (mapSet m k v) k = some v) ∧
    (∀ (d : DMap) (k : List Nat) (g : PMap), mapGet (mapSet d k g) k = some g) := by
  refine ⟨?_, ?_, ?_, ?_, ?_, ?_⟩
  · intro fuel buf b1 b2 b3 params name h1 h2 h3
    simp only [parseParams, h1, h2, h3, ne_eq, not_true_eq_false, if_false]
    simp [spaceByte, dataEnd]
  · intro fuel buf b1 b2 b3 params name h1 h2 h3
    simp only [parseParams, h1, h2, h3, ne_eq, not_true_eq_false, if_false]
    simp [dataEnd]
  · intro fuel buf b1 b2 b3 params name value h1 h2 hnil h3
    simp only [parseParams, h1, h2, h3, ne_eq, hnil, not_false_eq_true, if_true]
    simp [spaceByte, dataEnd]
  · intro fuel buf b1 b3 b4 data dataID params h1 h2 h3
    simp only [parseGroups, h1, h2, h3]
    simp [spaceByte, dataStart]
  · exact fun m k v => mapGet_mapSet m k v
  · exact fun d k g => mapGet_mapSet d k g

theorem parseData_nil_and_overwrite_witness :
    parseParams 1 (newBuffer (strBytes "a=\"-\"]")) [] =
        .ok ([], { bytes := strBytes "a=\"-\"]", position := 6 }) ∧
      parseData (newBuffer (strBytes "[d a=\"-\" b=\"v\"][d x=\"1\" x=\"2\"]")) emptyMessage =
        .ok ({ bytes := strBytes "[d a=\"-\" b=\"v\"][d x=\"1\" x=\"2\"]", position := 30 },
          { emptyMessage with Data := [(strBytes "d", [(strBytes "x", strBytes "2")])] }) := by
  constructor
  · exact parseData_nil_and_overwrite.2.1 0 (newBuffer (strBytes "a=\"-\"]"))
      { bytes := strBytes "a=\"-\"]", position := 2 }
      { bytes := strBytes "a=\"-\"]", position := 5 }
      { bytes := strBytes "a=\"-\"]", position := 6 }
      [] (strBytes "a") rfl rfl rfl
  · rfl

/-! ### RFC5424 round-trip (C2) -/

/-- The counterexample input: a structured-data value holding a backslash. -/
def cexInput : List Nat := strBytes "<0> - - - - - [d a=\"x\\y\"]"

/-- What `ParseMessage` yields on `cexInput`: the value `x\y` as written. -/
def cexParsed : Message :=
  { emptyMessage with Data := [(strBytes "d", [(strBytes "a", strBytes "x\\y")])] }

/-- What re-parsing the serialization yields: `strconv.AppendQuote` escaped
the backslash and the parser does no unescaping, so the value is `x\\y`. -/
def cexReparsed : Message :=
  { emptyMessage with Data := [(strBytes "d", [(strBytes "a", strBytes "x\\\\y")])] }

/-- C2 counterexample: a successfully parsed RFC5424 message whose
serialization re-parses to a different structured-data content — the entry
at outer key `d`, inner key `a` changes from `x\y` to `x\\y`, so the
key/value entry sets differ. -/
theorem rfc5424_roundtrip_counterexample :
    ParseMessage cexInput rfc5424Format = .ok cexParsed ∧
    ParseMessage cexParsed.Bytes rfc5424Format = .ok cexReparsed ∧
    (mapGet cexParsed.Data (strBytes "d")).bind (fun g => mapGet g (strBytes "a")) =
      some (strBytes "x\\y") ∧
    (mapGet cexReparsed.Data (strBytes "d")).bind (fun g => mapGet g (strBytes "a")) =
      some (strBytes "x\\\\y") ∧
    strBytes "x\\y" ≠ strBytes "x\\\\y" := by
  refine ⟨rfl, rfl, rfl, rfl, by decide⟩

/-- The representative input for the amended claim: every RFC5424 field
populated, the timestamp absent, and the data values free of characters
that quoting escapes. -/
def repInput : List Nat :=
  strBytes "<191>10 - hostname appname procid msgid [data name=\"value\"] message"

def repParsed : Message :=
  { emptyMessage with
    Priority := 191, Facility := 23, Severity := 7, Version := 10,
    Hostname := strBytes "hostname", Appname := strBytes "appname",
    ProcessID := strBytes "procid", MessageID := strBytes "msgid",
    Data := [(strBytes "data", [(strBytes "name", strBytes "value")])],
    Message := strBytes "message" }

/-- C2 amended: serializing and re-parsing restores the parsed Message when
the structured-data values contain no characters that Go quoting escapes
(backslashes, quotes, control bytes) and the timestamp is absent; for the
representative fully-populated input the serialization reproduces the input
bytes exactly and the round-trip is the identity. -/
theorem rfc5424_roundtrip_representative :
    ParseMessage repInput rfc5424Format = .ok repParsed ∧
    repParsed.Bytes = repInput ∧
    ParseMessage repParsed.Bytes rfc5424Format = .ok repParsed := by
  refine ⟨rfl, rfl, rfl⟩

/-! ### Fuel adequacy for the parseData loops

The two loops were embedded with a fuel parameter; the lemmas below show
the embedding is fuel-independent at the entry point's budget: any fuel
strictly above the remaining byte count gives the same result, because
every continuing iteration of either loop consumes at least one byte. -/

theorem findByte_lt_length {c : Nat} {l : List Nat} {i : Nat}
    (h : findByte c l = some i) : i < l.length := by
  induction l generalizing i with
  | nil => exact absurd h (by simp [findByte])
  | cons x xs ih =>
    simp only [findByte] at h
    split at h
    · cases h
      simp
    · cases hfb : findByte c xs with
      | none => rw [hfb] at h; cases h
      | some j =>
        rw [hfb] at h
        cases h
        simpa using Nat.succ_lt_succ (ih hfb)

theorem ReadSlice_advance (buf : Buffer) (c : Nat) (h : buf.wf) :
    (buf.ReadSlice c).2.1.bytes = buf.bytes ∧
      buf.position ≤ (buf.ReadSlice c).2.1.position ∧ (buf.ReadSlice c).2.1.wf ∧
      ((buf.ReadSlice c).2.2 = false → buf.position < (buf.ReadSlice c).2.1.position) := by
  cases hfb : findByte c (buf.bytes.drop buf.position) with
  | some i =>
    have hi := findByte_lt_length hfb
    rw [List.length_drop] at hi
    simp only [Buffer.ReadSlice, hfb, Buffer.wf] at h ⊢
    refine ⟨by trivial, by omega, by omega, fun _ => by omega⟩
  | none =>
    simp only [Buffer.ReadSlice, hfb, Buffer.wf, Buffer.length] at h ⊢
    refine ⟨by trivial, by omega, by omega, fun hc => by cases hc⟩

theorem ReadByte_advance (buf : Buffer) (h : buf.wf) :
    buf.ReadByte.2.1.bytes = buf.bytes ∧ buf.position ≤ buf.ReadByte.2.1.position ∧
      buf.ReadByte.2.1.wf ∧
      (buf.ReadByte.2.2 = false → buf.ReadByte.2.1.position = buf.position + 1 ∧
        buf.position < buf.bytes.length) := by
  by_cases hp : buf.position = buf.bytes.length
  · simp only [Buffer.ReadByte, Buffer.length, if_pos hp]
    refine ⟨by trivial, by omega, h, fun hc => by cases hc⟩
  · have hlt : buf.position < buf.bytes.length := by
      simp only [Buffer.wf] at h
      omega
    simp only [Buffer.ReadByte, Buffer.length, if_neg hp, Buffer.wf]
    refine ⟨by trivial, by omega, by omega, fun _ => ⟨by trivial, hlt⟩⟩

theorem checkByte_advance (buf : Buffer) (c : Nat) (b1 : Buffer)
    (hok : checkByte buf c = .ok b1) (h : buf.wf) :
    b1.bytes = buf.bytes ∧ b1.position = buf.position + 1 ∧ b1.wf := by
  have hrb := ReadByte_advance buf h
  simp only [checkByte] at hok
  cases hb : buf.ReadByte with
  | mk cc rest =>
    obtain ⟨b2, eof2⟩ := rest
    rw [hb] at hok hrb
    cases eof2
    · simp only at hok
      split at hok
      · cases hok
        exact ⟨hrb.1, (hrb.2.2.2 rfl).1, hrb.2.2.1⟩
      · cases hok
    · cases hok

theorem UnreadByte_advance (buf b1 : Buffer) (hok : buf.UnreadByte = some b1)
    (h : buf.wf) :
    b1.bytes = buf.bytes ∧ b1.position = buf.position - 1 ∧ b1.wf := by
  simp only [Buffer.UnreadByte] at hok
  split at hok
  · cases hok
  · cases hok
    refine ⟨rfl, rfl, ?_⟩
    simp only [Buffer.wf] at h ⊢
    omega

theorem parseParamName_advance (buf b1 : Buffer) (r : Except Err (List Nat))
    (heq : parseParamName buf = (b1, r)) (h : buf.wf) :
    b1.bytes = buf.bytes ∧ buf.position ≤ b1.position ∧ b1.wf ∧
      (∀ name, r = .ok name → buf.position < b1.position) := by
  have hrs := ReadSlice_advance buf equalByte h
  simp only [parseParamName] at heq
  cases hb : buf.ReadSlice equalByte with
  | mk nameBytes rest =>
    obtain ⟨b2, eof2⟩ := rest
    rw [hb] at heq hrs
    cases eof2
    · simp only at heq
      by_cases hlen : nameBytes.dropLast.length > maxDataParamLength
      · rw [if_pos hlen] at heq
        cases heq
        exact ⟨hrs.1, hrs.2.1, hrs.2.2.1, fun name hc => by cases hc⟩
      · rw [if_neg hlen] at heq
        cases heq
        exact ⟨hrs.1, hrs.2.1, hrs.2.2.1, fun name _ => hrs.2.2.2 rfl⟩
    · simp only at heq
      cases heq
      exact ⟨hrs.1, hrs.2.1, hrs.2.2.1, fun name hc => by cases hc⟩

theorem parseParamValue_advance (buf b2 : Buffer) (v : List Nat)
    (hok : parseParamValue buf = .ok (v, b2)) (h : buf.wf) :
    b2.bytes = buf.bytes ∧ buf.position < b2.position ∧ b2.wf := by
  simp only [parseParamValue] at hok
  cases hcb : checkByte buf qouteByte with
  | error e => rw [hcb] at hok; cases hok
  | ok b1 =>
    rw [hcb] at hok
    have h1 := checkByte_advance buf qouteByte b1 hcb h
    have hrs := ReadSlice_advance b1 qouteByte h1.2.2
    obtain ⟨hb1, hp1, hw1⟩ := h1
    obtain ⟨hb2, hp2, hw2, _⟩ := hrs
    simp only at hok
    split at hok
    · cases hok
    · cases hok
      exact ⟨hb2.trans hb1,
        Nat.lt_of_lt_of_le (by omega : buf.position < b1.position) hp2, hw2⟩

theorem nextIsNilValue_advance (buf : Buffer) (h : buf.wf) :
    (nextIsNilValue buf).2.bytes = buf.bytes ∧
      buf.position ≤ (nextIsNilValue buf).2.position ∧ (nextIsNilValue buf).2.wf := by
  have hrb := ReadByte_advance buf h
  simp only [nextIsNilValue]
  cases hb : buf.ReadByte with
  | mk c rest =>
    obtain ⟨b1, eof2⟩ := rest
    rw [hb] at hrb
    dsimp only at hrb
    cases eof2
    · simp only
      split
      · exact ⟨hrb.1, hrb.2.1, hrb.2.2.1⟩
      · cases hu : b1.UnreadByte with
        | some b3 =>
          have h3 := UnreadByte_advance b1 b3 hu hrb.2.2.1
          have hp1 := (hrb.2.2.2 rfl).1
          obtain ⟨h3b, h3p, h3w⟩ := h3
          exact ⟨h3b.trans hrb.1, (by omega : buf.position ≤ b3.position), h3w⟩
        | none => exact ⟨hrb.1, hrb.2.1, hrb.2.2.1⟩
    · exact ⟨rfl, Nat.le_refl _, h⟩

theorem ReadSlice_eof (buf : Buffer) (c : Nat) (v : List Nat) (b2 : Buffer)
    (h : buf.ReadSlice c = (v, b2, true)) :
    v = buf.bytes.drop buf.position ∧ b2 = { buf with position := buf.bytes.length } := by
  cases hfb : findByte c (buf.bytes.drop buf.position) with
  | some i =>
    simp only [Buffer.ReadSlice, hfb, Prod.mk.injEq] at h
    exact absurd h.2.2 (by simp)
  | none =>
    simp only [Buffer.ReadSlice, hfb, Buffer.length, Prod.mk.injEq] at h
    exact ⟨h.1.symm, h.2.1.symm⟩

theorem parseSingleValue_advance (buf b1 : Buffer) (name : String)
    (allowNilValue : Bool) (maxLength : Nat) (v : List Nat)
    (hok : parseSingleValue buf name allowNilValue maxLength = .ok (v, b1))
    (h : buf.wf) :
    b1.bytes = buf.bytes ∧ buf.position ≤ b1.position ∧ b1.wf := by
  simp only [parseSingleValue] at hok
  cases hniv : (if allowNilValue then nextIsNilValue buf else (false, buf)) with
  | mk flag bufA =>
    have hA : bufA.bytes = buf.bytes ∧ buf.position ≤ bufA.position ∧ bufA.wf := by
      by_cases hb : allowNilValue = true
      · rw [if_pos hb] at hniv
        have hadv := nextIsNilValue_advance buf h
        rw [hniv] at hadv
        exact hadv
      · rw [if_neg hb] at hniv
        cases hniv
        exact ⟨rfl, Nat.le_refl _, h⟩
    rw [hniv] at hok
    cases flag
    · simp only at hok
      have hrs := ReadSlice_advance bufA spaceByte hA.2.2
      cases hb : bufA.ReadSlice spaceByte with
      | mk value rest =>
        obtain ⟨b2, eof2⟩ := rest
        rw [hb] at hok hrs
        dsimp only at hok hrs
        obtain ⟨hAb, hAp, hAw⟩ := hA
        obtain ⟨hrb2, hrp, hrw, hrstrict⟩ := hrs
        by_cases hc1 : (eof2 && decide (value.length = 0)) = true
        · rw [if_pos hc1] at hok
          cases hok
        · rw [if_neg hc1] at hok
          by_cases hc2 : value.length > if eof2 = true then maxLength else maxLength + 1
          · rw [if_pos hc2] at hok
            cases hok
          · rw [if_neg hc2] at hok
            by_cases hc3 : (decide (value.getLastD 0 = spaceByte) ||
                decide (value.getLastD 0 = dataEnd)) = true
            · rw [if_pos hc3] at hok
              cases hu : b2.UnreadByte with
              | some b3 =>
                rw [hu] at hok
                cases hok
                have h3 := UnreadByte_advance b2 b1 hu hrw
                obtain ⟨h3b, h3p, h3w⟩ := h3
                have hgt : bufA.position < b2.position := by
                  cases eof2 with
                  | false => exact hrstrict rfl
                  | true =>
                    obtain ⟨hv, hb2eq⟩ := ReadSlice_eof bufA spaceByte value b2 hb
                    have hlen : value.length ≠ 0 := by
                      simp only [Bool.true_and, decide_eq_true_eq] at hc1
                      exact hc1
                    have hvl : value.length = bufA.bytes.length - bufA.position := by
                      rw [hv, List.length_drop]
                    have hb2p : b2.position = bufA.bytes.length := by
                      rw [hb2eq]
                    omega
                exact ⟨(h3b.trans hrb2).trans hAb, by omega, h3w⟩
              | none =>
                rw [hu] at hok
                cases hok
            · rw [if_neg hc3] at hok
              cases hok
              exact ⟨hrb2.trans hAb, by omega, hrw⟩
    · simp only at hok
      cases hok
      exact hA

theorem maxRead_eq (b : Buffer) : b.maxRead = b.bytes.length - b.position := rfl

/-- The params loop is fuel-independent above the remaining byte count:
every continuing iteration consumes at least one byte. -/
theorem parseParams_congr (m : Nat) :
    ∀ (n : Nat) (buf : Buffer) (params : PMap), buf.wf →
      buf.maxRead < m → buf.maxRead < n →
      parseParams m buf params = parseParams n buf params := by
  induction m with
  | zero =>
    intro n buf params _ hm _
    omega
  | succ m ih =>
    intro n buf params hwf hm hn
    cases n with
    | zero => omega
    | succ n =>
      simp only [parseParams]
      cases hpn : parseParamName buf with
      | mk b1 r =>
        have h1 := parseParamName_advance buf b1 r hpn hwf
        cases r with
        | error e => rfl
        | ok paramName =>
          dsimp only
          cases hpv : parseParamValue b1 with
          | error e => rfl
          | ok pr =>
            obtain ⟨paramValue, b2⟩ := pr
            have h2 := parseParamValue_advance b1 b2 paramValue hpv h1.2.2.1
            dsimp only
            cases hrb : b2.ReadByte with
            | mk c rest =>
              obtain ⟨b3, eof2⟩ := rest
              have h3 := ReadByte_advance b2 h2.2.2
              rw [hrb] at h3
              dsimp only at h3
              cases eof2
              · dsimp only
                by_cases hc1 : c = dataEnd
                · simp only [if_pos hc1]
                · simp only [if_neg hc1]
                  by_cases hc2 : c = spaceByte
                  · have hne : ¬¬c = spaceByte := by simp [hc2]
                    simp only [ne_eq, if_neg hne]
                    refine ih n b3 _ h3.2.2.1 ?_ ?_ <;>
                    · have hb1 := h1.1
                      have hb2 := h2.1
                      have hb3 := h3.1
                      have hp0 := h1.2.2.2 paramName rfl
                      have hp1 := h2.2.1
                      have hp2 := (h3.2.2.2 rfl).1
                      have hw3 : b3.position ≤ b3.bytes.length := h3.2.2.1
                      rw [maxRead_eq] at hm hn ⊢
                      rw [hb3, hb2, hb1] at hw3 ⊢
                      omega
                  · have hne : ¬c = spaceByte := hc2
                    simp only [ne_eq, if_pos hne]
              · rfl

/-- A successful run of the params loop only moves the cursor forward over
the same bytes and keeps it well-formed. -/
theorem parseParams_advance (f : Nat) :
    ∀ (buf : Buffer) (params ps : PMap) (b3 : Buffer),
      parseParams f buf params = .ok (ps, b3) → buf.wf →
      b3.bytes = buf.bytes ∧ buf.position ≤ b3.position ∧ b3.wf := by
  induction f with
  | zero =>
    intro buf params ps b3 hok _
    cases hok
  | succ f ih =>
    intro buf params ps b3 hok hwf
    simp only [parseParams] at hok
    cases hpn : parseParamName buf with
    | mk b1 r =>
      rw [hpn] at hok
      have h1 := parseParamName_advance buf b1 r hpn hwf
      cases r with
      | error e =>
        dsimp only at hok
        by_cases he : e = Err.eof
        · rw [if_pos he] at hok
          cases hok
          exact ⟨h1.1, h1.2.1, h1.2.2.1⟩
        · rw [if_neg he] at hok
          cases hok
      | ok paramName =>
        dsimp only at hok
        cases hpv : parseParamValue b1 with
        | error e => rw [hpv] at hok; cases hok
        | ok pr =>
          rw [hpv] at hok
          obtain ⟨paramValue, b2⟩ := pr
          have h2 := parseParamValue_advance b1 b2 paramValue hpv h1.2.2.1
          dsimp only at hok
          cases hrb : b2.ReadByte with
          | mk c rest =>
            rw [hrb] at hok
            obtain ⟨b4, eof2⟩ := rest
            have h3 := ReadByte_advance b2 h2.2.2
            rw [hrb] at h3
            dsimp only at h3
            cases eof2
            · dsimp only at hok
              by_cases hc1 : c = dataEnd
              · rw [if_pos hc1] at hok
                cases hok
                have hp2 := (h3.2.2.2 rfl).1
                refine ⟨(h3.1.trans h2.1).trans h1.1, ?_, h3.2.2.1⟩
                have := h1.2.1
                have := h2.2.1
                omega
              · rw [if_neg hc1] at hok
                by_cases hc2 : c = spaceByte
                · have hne : ¬¬c = spaceByte := by simp [hc2]
                  simp only [ne_eq, if_neg hne] at hok
                  have hrec := ih b4 _ ps b3 hok h3.2.2.1
                  have hp2 := (h3.2.2.2 rfl).1
                  refine ⟨hrec.1.trans ((h3.1.trans h2.1).trans h1.1), ?_, hrec.2.2⟩
                  have := h1.2.1
                  have := h2.2.1
                  have := hrec.2.1
                  omega
                · have hne : ¬c = spaceByte := hc2
                  simp only [ne_eq, if_pos hne] at hok
                  cases hok
            · dsimp only at hok
              cases hok

/-- The groups loop is fuel-independent above the remaining byte count
plus one (its inner params loop gets the fuel less one). -/
theorem parseGroups_congr (m : Nat) :
    ∀ (n : Nat) (buf : Buffer) (data : DMap), buf.wf →
      buf.maxRead + 1 < m → buf.maxRead + 1 < n →
      parseGroups m buf data = parseGroups n buf data := by
  induction m with
  | zero =>
    intro n buf data _ hm _
    omega
  | succ m ih =>
    intro n buf data hwf hm hn
    cases n with
    | zero => omega
    | succ n =>
      simp only [parseGroups]
      cases hsv : parseSingleValue buf "data-ID" false maxDataIDLength with
      | error e => rfl
      | ok pr =>
        obtain ⟨dataID, b1⟩ := pr
        have h1 := parseSingleValue_advance buf b1 "data-ID" false maxDataIDLength
          dataID hsv hwf
        have h2 := ReadByte_advance b1 h1.2.2
        have hwf2 := h2.2.2.1
        have hboundm : b1.ReadByte.2.1.maxRead < m := by
          have hw := hwf2
          rw [Buffer.wf, h2.1, h1.1] at hw
          rw [maxRead_eq] at hm ⊢
          rw [h2.1, h1.1]
          have := h1.2.1
          have := h2.2.1
          omega
        have hboundn : b1.ReadByte.2.1.maxRead < n := by
          have hw := hwf2
          rw [Buffer.wf, h2.1, h1.1] at hw
          rw [maxRead_eq] at hn ⊢
          rw [h2.1, h1.1]
          have := h1.2.1
          have := h2.2.1
          omega
        dsimp only
        rw [← parseParams_congr m n b1.ReadByte.2.1 [] hwf2 hboundm hboundn]
        cases hpp : parseParams m b1.ReadByte.2.1 [] with
        | error e => rfl
        | ok pr2 =>
          obtain ⟨params, b3⟩ := pr2
          have h3 := parseParams_advance m b1.ReadByte.2.1 [] params b3 hpp hwf2
          dsimp only
          cases hrb : b3.ReadByte with
          | mk c rest =>
            obtain ⟨b4, eof2⟩ := rest
            have h4 := ReadByte_advance b3 h3.2.2
            rw [hrb] at h4
            dsimp only at h4
            cases eof2
            · dsimp only
              by_cases hc1 : c = spaceByte
              · simp only [if_pos hc1]
              · simp only [if_neg hc1]
                by_cases hc2 : c = dataStart
                · have hne : ¬¬c = dataStart := by simp [hc2]
                  simp only [ne_eq, if_neg hne]
                  refine ih n b4 _ h4.2.2.1 ?_ ?_ <;>
                  · have hp4 := (h4.2.2.2 rfl).1
                    have hw4 := h4.2.2.1
                    rw [Buffer.wf, h4.1, h3.1, h2.1, h1.1] at hw4
                    rw [maxRead_eq] at hm hn ⊢
                    rw [h4.1, h3.1, h2.1, h1.1]
                    have := h1.2.1
                    have := h2.2.1
                    have := h3.2.1
                    omega
                · have hne : ¬c = dataStart := hc2
                  simp only [ne_eq, if_pos hne]
            · rfl

theorem parseGroups_fuel (f : Nat) (buf : Buffer) (data : DMap) (hwf : buf.wf)
    (hf : buf.maxRead + 1 < f) :
    parseGroups f buf data = parseGroups (buf.maxRead + 2) buf data :=
  parseGroups_congr f (buf.maxRead + 2) buf data hwf hf (by omega)
